import Mathlib

/-! # diffs command line: lifecycle and command orchestration

A shallow embedding of `cmd/diffs/main.go`.  The program is sequential glue
around external collaborators (kingpin, noms, runtime/trace, runtime/pprof,
net/http).  Every call into a collaborator is recorded as an `Event` in the
order the source performs it; what a collaborator answers is supplied by an
`Env`.  The closure variables of `impl` (`sp`, `*v`, `*sps`, `*tf`, `*cpu`) are
explicit: `sp` lives in the state `St`, the flag targets in `Parsed`.

The input stream is modelled as the sequence of code points it decodes to,
followed by the error the underlying reader reports once the data is used up.
-/

namespace Diffs

/-- Go `error` values, identified by their message. -/
abbrev Error := String

/-- An opened `*os.File`, identified by the file name given on the command line. -/
abbrev Sink := String

/-- The constant `dropWarning` of main.go. -/
def dropWarning : String :=
  "This command deletes an entire database and its history. This operations is not recoverable. Proceed? y/n\n"

/-- A resolved `spec.Spec`, identified by the database it denotes. -/
structure Spec where
  database : String
deriving DecidableEq, Repr

/-- The zero value `spec.Spec{}`. -/
def Spec.empty : Spec := ⟨""⟩

/-- The function passed to `impl` as `exit`: `os.Exit` in `main`, which ends the
process, or a function that returns to its caller. -/
inductive ExitFn where
  | osExit
  | returns
deriving DecidableEq, Repr

/-- The command kingpin selected, with the value of its flags. -/
inductive Command where
  | serve (port : Int)
  | drop
deriving DecidableEq, Repr

/-- The name under which a command is registered: `Model().Name`. -/
def Command.Name : Command → String
  | .serve _ => "serve"
  | .drop => "drop"

/-- Calls, in the order the program performs them. -/
inductive Event where
  /-- The call `app.Usage(args)`. -/
  | usage
  /-- The usage text kingpin writes when no command was given. -/
  | writeUsage
  /-- The call `fmt.Println(version.Version())`. -/
  | printlnVersion
  /-- A call of the `exit` parameter of `impl`. -/
  | exit (code : Nat)
  /-- A direct call of `os.Exit`. -/
  | osExit (code : Nat)
  /-- The call `fmt.Fprintln(errs, err.Error())`. -/
  | errPrintln (err : Error)
  /-- The call `rlog.Init(errs, logOptions)` with `logOptions.Prefix`. -/
  | rlogInit (prefixed : Bool)
  /-- The call `trace.Start(w)`. -/
  | traceStart (w : Sink)
  /-- The call `pprof.StartCPUProfile(w)`; `none` is a nil file. -/
  | startCPUProfile (w : Option Sink)
  /-- The call `signal.Notify(c, os.Interrupt, syscall.SIGTERM)`. -/
  | signalNotify
  /-- The `go func() { ... }()` statement that starts the signal watcher. -/
  | goWatcher
  /-- The call `trace.Stop()`. -/
  | traceStop
  /-- The call `pprof.StopCPUProfile()`. -/
  | stopCPUProfile
  /-- The call `w.WriteString(s)`. -/
  | writeString (s : String)
  /-- The call `w.Flush()`. -/
  | flush
  /-- The call `r.ReadString(delim)` with the newline delimiter. -/
  | readString
  /-- The call `gsp()` of the spec resolver, made by the `drop` action. -/
  | gsp
  /-- The call `spec.ForDatabase(loc)`. -/
  | forDatabase (loc : String)
  /-- The call `sp.GetDatabase()`. -/
  | getDatabase (sp : Spec)
  /-- The call `noms.GetDataset(name)` on the database of `sp`. -/
  | getDataset (sp : Spec) (name : String)
  /-- The call `noms.Delete(ds)` on the database of `sp`, `ds` the dataset `name`. -/
  | delete (sp : Spec) (name : String)
  /-- The call `log.Printf("Listening on %s...", ps)`. -/
  | logPrintf (port : Int)
  /-- The call `servepkg.NewService(loc, accounts.Accounts())`. -/
  | newService (loc : String)
  /-- The call `http.Handle("/", s)`. -/
  | httpHandle
  /-- The call `http.ListenAndServe(addr, nil)`. -/
  | listenAndServe (port : Int)
deriving DecidableEq, Repr

/-- The input stream `in`: the text still to be read, and the error the
underlying reader returns once it is used up (`io.EOF` for a closed stream). -/
structure Reader where
  data : List Char
  err : Error := "EOF"
deriving DecidableEq, Repr

/-- What kingpin has made of the argument list when the hooks run: the flag
targets `*v`, `*sps`, `*tf`, `*cpu`, the selected command, and the first error
of tokenising or value setting, which `Parse` reports after the pre-action
hooks.  Kingpin's built-in help and completion flags are not modelled. -/
structure Parsed where
  v : Bool := false
  sps : Option String := none
  tf : Option Sink := none
  cpu : Option Sink := none
  SelectedCommand : Option Command := none
  err : Option Error := none
deriving DecidableEq, Repr

/-- The collaborators of `impl`. -/
structure Env where
  /-- The `exit` parameter. -/
  exit : ExitFn
  /-- The tokenising and value setting of kingpin. -/
  parse : List String → Parsed
  /-- The outcome of `spec.ForDatabase(loc)`; the first argument is the number
  of resolutions already performed in this process. -/
  ForDatabase : Nat → String → Except Error Spec
  /-- The outcome of `trace.Start(w)`. -/
  traceStart : Sink → Option Error
  /-- The outcome of `pprof.StartCPUProfile(w)`. -/
  StartCPUProfile : Option Sink → Option Error
  /-- The error of `noms.Delete(ds)`. -/
  Delete : Spec → String → Option Error
  /-- The error `http.ListenAndServe` returns, `none` when it serves forever. -/
  ListenAndServe : Int → Option Error
  /-- The constant `db.LOCAL_DATASET`. -/
  LOCAL_DATASET : String

/-- The mutable state of one run: the cache variable `sp`, the number of
underlying resolutions performed, the input stream, the calls made so far. -/
structure St where
  sp : Option Spec := none
  resolutions : Nat := 0
  input : Reader
  events : List Event := []
deriving DecidableEq, Repr

/-- Record one call. -/
def emit (e : Event) (st : St) : St :=
  { st with events := st.events ++ [e] }

/-! ## The confirmation line -/

/-- Go `unicode.IsSpace`. -/
def isSpace (c : Char) : Bool :=
  let n := c.toNat
  (9 ≤ n && n ≤ 13) || n == 32 || n == 0x85 || n == 0xA0 || n == 0x1680 ||
  (0x2000 ≤ n && n ≤ 0x200A) || n == 0x2028 || n == 0x2029 || n == 0x202F ||
  n == 0x205F || n == 0x3000

/-- Go `strings.TrimSpace`: drop leading and trailing white space. -/
def TrimSpace (s : List Char) : List Char :=
  ((s.dropWhile isSpace).reverse.dropWhile isSpace).reverse

/-- Split a text after its first newline: the line with its newline, and the rest. -/
def splitLine : List Char → Option (List Char × List Char)
  | [] => none
  | c :: cs =>
    if c = '\n' then some ([c], cs)
    else match splitLine cs with
      | some (line, rest) => some (c :: line, rest)
      | none => none

/-- Go `bufio.Reader.ReadString` with the newline delimiter: the text up to and
including the first newline; when the stream ends before a newline, the text
read so far together with the reader's error. -/
def ReadString (st : St) : (List Char × Option Error) × St :=
  let st := emit .readString st
  match splitLine st.input.data with
  | some (line, rest) => ((line, none), { st with input := { st.input with data := rest } })
  | none => ((st.input.data, some st.input.err), { st with input := { st.input with data := [] } })

/-! ## The spec resolver -/

/-- The closure `getSpec` of `impl`; `sps` is `*sps`. -/
def getSpec (env : Env) (sps : String) (st : St) : (Spec × Option Error) × St :=
  match st.sp with
  | some s => ((s, none), st)
  | none =>
    let st1 := { emit (.forDatabase sps) st with resolutions := st.resolutions + 1 }
    match env.ForDatabase st.resolutions sps with
    | .error err => ((Spec.empty, some err), st1)
    | .ok s => ((s, none), st1)

/-! ## The `drop` command -/

/-- The action closure registered by `drop`; `gsp` is `getSpec`. -/
def dropAction (env : Env) (sps : String) (st : St) : Option Error × St :=
  let st := emit (.writeString dropWarning) st
  let st := emit .flush st
  match ReadString st with
  | ((_, some err), st) => (some err, st)
  | ((answer, none), st) =>
    let answer := TrimSpace answer
    if answer ≠ ['y'] then (none, st)
    else
      let st := emit .gsp st
      match getSpec env sps st with
      | ((_, some err), st) => (some err, st)
      | ((sp, none), st) =>
        let st := emit (.getDatabase sp) st
        let st := emit (.getDataset sp env.LOCAL_DATASET) st
        let st := emit (.delete sp env.LOCAL_DATASET) st
        (env.Delete sp env.LOCAL_DATASET, st)

/-! ## The `serve` command -/

/-- How a run, or a part of one, ends. -/
inductive Outcome where
  /-- The function returned to its caller. -/
  | returned
  /-- The process was ended with the given status. -/
  | exited (code : Nat)
  /-- The primary thread serves HTTP and never comes back. -/
  | blocked
deriving DecidableEq, Repr

/-- The action closure registered by `serve`: `some err` when the listener
returns, `none` when it blocks for the rest of the process. -/
def serveAction (env : Env) (sps : String) (port : Int) (st : St) : Option Error × St :=
  let st := emit (.logPrintf port) st
  let st := emit (.newService sps) st
  let st := emit .httpHandle st
  let st := emit (.listenAndServe port) st
  (env.ListenAndServe port, st)

/-! ## Diagnostic capture -/

/-- The closure `stopCPUProfile` of `impl`; `cpu` is `*cpu`. -/
def stopCPUProfile (cpu : Option Sink) (st : St) : St :=
  if cpu ≠ none then emit .stopCPUProfile st else st

/-- The closure `stopTrace` of `impl`; `tf` is `*tf`. -/
def stopTrace (tf : Option Sink) (st : St) : St :=
  if tf ≠ none then emit .traceStop st else st

/-- The body of the signal watcher goroutine, run when a signal arrives on `c`. -/
def signalWatcher (tf cpu : Option Sink) (st : St) : Outcome × St :=
  let st := stopTrace tf st
  let st := stopCPUProfile cpu st
  (.exited 1, emit (.osExit 1) st)

/-- The block `if *tf != nil { err := trace.Start(*tf) ... }` of the
application action: the error it returns with, if any. -/
def startTrace (env : Env) (pc : Parsed) (st : St) : Option Error × St :=
  match pc.tf with
  | some f => (env.traceStart f, emit (.traceStart f) st)
  | none => (none, st)

/-- The block `if *cpu != nil { err := pprof.StartCPUProfile(*tf) ... }` of the
application action: the error it returns with, if any. -/
def startProfile (env : Env) (pc : Parsed) (st : St) : Option Error × St :=
  match pc.cpu with
  | some _ => (env.StartCPUProfile pc.tf, emit (.startCPUProfile pc.tf) st)
  | none => (none, st)

/-- The closure passed to `app.Action`. -/
def appAction (env : Env) (pc : Parsed) (st : St) : Option Error × St :=
  match pc.SelectedCommand with
  | none => (none, st)
  | some cmd =>
    let st := emit (.rlogInit (cmd.Name == "serve")) st
    match startTrace env pc st with
    | (some err, st) => (some err, st)
    | (none, st) =>
      match startProfile env pc st with
      | (some err, st) => (some err, st)
      | (none, st) =>
        let st := emit .signalNotify st
        let st := emit .goWatcher st
        (none, st)

/-! ## The orchestrator -/

/-- A call of the `exit` parameter: `true` when the process ends there. -/
def callExit (env : Env) (code : Nat) (st : St) : Bool × St :=
  (decide (env.exit = .osExit), emit (.exit code) st)

/-- The closure passed to `app.PreAction`: `some code` when the process ends
in it, `none` when it returns (it only ever returns nil). -/
def PreAction (env : Env) (pc : Parsed) (st : St) : Option Nat × St :=
  if pc.v then
    let st := emit .printlnVersion st
    match callExit env 0 st with
    | (true, st) => (some 0, st)
    | (false, st) => (none, st)
  else (none, st)

/-- The error kingpin reports when a required flag is absent. -/
def requiredFlagError : Error := "required flag --db not provided"

/-- The error kingpin reports when no command was given. -/
def ErrCommandNotSpecified : Error := "command not specified"

/-- The result of `app.Parse`: it returns an error or nil, the process ends
inside it, or it never returns. -/
inductive ParseResult where
  | ret (err : Option Error)
  | exited (code : Nat)
  | blocked
deriving DecidableEq, Repr

/-- Kingpin `Application.Parse` on this application: pre-action hooks, then
the parse error if any, then the required flags, then the application action
followed by the action of the selected command.  When no command was given,
kingpin writes the usage and calls its terminate function with status 0,
which `impl` has set to `exit`, before it returns the error. -/
def Parse (env : Env) (pc : Parsed) (st : St) : ParseResult × St :=
  match PreAction env pc st with
  | (some code, st) => (.exited code, st)
  | (none, st) =>
    match pc.err with
    | some err => (.ret (some err), st)
    | none =>
      match pc.sps with
      | none => (.ret (some requiredFlagError), st)
      | some sps =>
        match appAction env pc st with
        | (some err, st) => (.ret (some err), st)
        | (none, st) =>
          match pc.SelectedCommand with
          | none =>
            let st := emit .writeUsage st
            match callExit env 0 st with
            | (true, st) => (.exited 0, st)
            | (false, st) => (.ret (some ErrCommandNotSpecified), st)
          | some (.serve port) =>
            match serveAction env sps port st with
            | (some err, st) => (.ret (some err), st)
            | (none, st) => (.blocked, st)
          | some .drop =>
            match dropAction env sps st with
            | (err, st) => (.ret err, st)

/-- The deferred calls of `impl`, run when it returns: last deferred first. -/
def deferred (tf cpu : Option Sink) (st : St) : St :=
  stopTrace tf (stopCPUProfile cpu st)

/-- The function `impl`. -/
def impl (env : Env) (args : List String) (input : Reader) : Outcome × St :=
  let st : St := { input := input }
  if args.length = 0 then
    let st := emit .usage st
    (.returned, deferred none none st)
  else
    let pc := env.parse args
    match Parse env pc st with
    | (.exited code, st) => (.exited code, st)
    | (.blocked, st) => (.blocked, st)
    | (.ret none, st) => (.returned, deferred pc.tf pc.cpu st)
    | (.ret (some err), st) =>
      let st := emit (.errPrintln err) st
      match callExit env 1 st with
      | (true, st) => (.exited 1, st)
      | (false, st) => (.returned, deferred pc.tf pc.cpu st)

/-! ## A concrete environment -/

/-- A tokeniser for the argument forms used in the examples below: the global
flags in their long form with a separate value, and the two commands. -/
def parseArgs : List String → Parsed → Parsed
  | [], pc => pc
  | a :: rest, pc =>
    if a = "--version" then parseArgs rest { pc with v := true }
    else if a = "drop" then parseArgs rest { pc with SelectedCommand := some .drop }
    else if a = "serve" then parseArgs rest { pc with SelectedCommand := some (.serve 7001) }
    else match rest with
      | [] => { pc with err := some ("unexpected " ++ a) }
      | x :: rest =>
        if a = "--db" then parseArgs rest { pc with sps := some x }
        else if a = "--trace" then parseArgs rest { pc with tf := some x }
        else if a = "--cpu" then parseArgs rest { pc with cpu := some x }
        else { pc with err := some ("unexpected " ++ a) }

/-- An environment in which every collaborator succeeds, `exit` is `os.Exit`
as in `main`, the listener serves forever, and the local dataset is named
`local`. -/
def mainEnv : Env where
  exit := .osExit
  parse := fun args => parseArgs args {}
  ForDatabase := fun _ loc => .ok ⟨loc⟩
  traceStart := fun _ => none
  StartCPUProfile := fun _ => none
  Delete := fun _ _ => none
  ListenAndServe := fun _ => none
  LOCAL_DATASET := "local"

/-- The input stream holding the given text, then closed. -/
def stdin (text : String) : Reader := { data := text.toList }

/-- An environment like `mainEnv` in which the first resolution fails and the
later ones succeed. -/
def flakyEnv : Env :=
  { mainEnv with
    ForDatabase := fun k loc => if k = 0 then .error "database is locked" else .ok ⟨loc⟩ }

/-- An environment like `mainEnv` whose `exit` returns to `impl`. -/
def returningEnv : Env :=
  { mainEnv with exit := .returns }

/-! ## Observations on a sequence of calls -/

/-- Delete operations among the calls. -/
def Event.isDelete : Event → Bool
  | .delete _ _ => true
  | _ => false

/-- Calls made by the `drop` action. -/
def Event.isDropCall : Event → Bool
  | .writeString _ => true
  | .flush => true
  | .readString => true
  | .gsp => true
  | .forDatabase _ => true
  | .getDatabase _ => true
  | .getDataset _ _ => true
  | .delete _ _ => true
  | _ => false

/-- Calls made by the `serve` action. -/
def Event.isServeCall : Event → Bool
  | .logPrintf _ => true
  | .newService _ => true
  | .httpHandle => true
  | .listenAndServe _ => true
  | _ => false

/-- Calls made by the application action. -/
def Event.isAppCall : Event → Bool
  | .rlogInit _ => true
  | .traceStart _ => true
  | .startCPUProfile _ => true
  | .signalNotify => true
  | .goWatcher => true
  | _ => false

/-- The capture state of the Go runtime: whether the execution tracer and the
CPU profiler are running. -/
structure Runtime where
  tracing : Bool := false
  profiling : Bool := false
deriving DecidableEq, Repr

/-- The effect of one call on the Go runtime: `trace.Start` and
`pprof.StartCPUProfile` switch their stream on when they succeed;
`trace.Stop` and `pprof.StopCPUProfile` stop the current stream, if any, and
return in either case; no other call touches the runtime. -/
def Runtime.call (env : Env) (r : Runtime) : Event → Runtime
  | .traceStart w => { r with tracing := r.tracing || (env.traceStart w).isNone }
  | .startCPUProfile w => { r with profiling := r.profiling || (env.StartCPUProfile w).isNone }
  | .traceStop => { r with tracing := false }
  | .stopCPUProfile => { r with profiling := false }
  | _ => r

/-- The capture state of the runtime after a sequence of calls, from a fresh
process. -/
def runtimeAfter (env : Env) (evs : List Event) : Runtime :=
  evs.foldl (Runtime.call env) {}

/-- The prompt part of the `drop` action: the warning, the flush, the read. -/
def promptEvents : List Event :=
  [.writeString dropWarning, .flush, .readString]

/-! # Theorems -/

/-! ## Reading the confirmation line -/

theorem splitLine_none (l : List Char) (h : '\n' ∉ l) : splitLine l = none := by
  induction l with
  | nil => rfl
  | cons c cs ih =>
    simp only [List.mem_cons, not_or] at h
    have hc : c ≠ '\n' := fun e => h.1 e.symm
    simp [splitLine, hc, ih h.2]

theorem splitLine_some (pre rest : List Char) (h : '\n' ∉ pre) :
    splitLine (pre ++ '\n' :: rest) = some (pre ++ ['\n'], rest) := by
  induction pre with
  | nil => simp [splitLine]
  | cons c cs ih =>
    simp only [List.mem_cons, not_or] at h
    have hc : c ≠ '\n' := fun e => h.1 e.symm
    simp [splitLine, hc, ih h.2]

theorem dropAction_readError (env : Env) (sps : String) (st : St)
    (h : '\n' ∉ st.input.data) :
    dropAction env sps st =
      (some st.input.err,
        { st with events := st.events ++ promptEvents, input := { st.input with data := [] } }) := by
  simp [dropAction, ReadString, emit, promptEvents, splitLine_none _ h]

theorem dropAction_declined (env : Env) (sps : String) (st : St) (pre rest : List Char)
    (hpre : '\n' ∉ pre) (hdata : st.input.data = pre ++ '\n' :: rest)
    (hans : TrimSpace (pre ++ ['\n']) ≠ ['y']) :
    dropAction env sps st =
      (none,
        { st with events := st.events ++ promptEvents, input := { st.input with data := rest } }) := by
  simp [dropAction, ReadString, emit, promptEvents, hdata, splitLine_some _ _ hpre, hans]

theorem dropAction_confirmed (env : Env) (sps : String) (st : St) (pre rest : List Char)
    (s : Spec) (hpre : '\n' ∉ pre) (hdata : st.input.data = pre ++ '\n' :: rest)
    (hans : TrimSpace (pre ++ ['\n']) = ['y']) (hres : (getSpec env sps st).1 = (s, none)) :
    (dropAction env sps st).1 = env.Delete s env.LOCAL_DATASET ∧
    (dropAction env sps st).2.events.filter Event.isDelete =
      st.events.filter Event.isDelete ++ [.delete s env.LOCAL_DATASET] := by
  cases hsp : st.sp with
  | some s0 =>
    simp [getSpec, hsp] at hres
    subst hres
    simp [dropAction, ReadString, emit, hdata, splitLine_some _ _ hpre, hans, getSpec, hsp,
      Event.isDelete]
  | none =>
    cases hfd : env.ForDatabase st.resolutions sps with
    | error e => simp [getSpec, hsp, hfd] at hres
    | ok s1 =>
      simp [getSpec, hsp, hfd] at hres
      subst hres
      simp [dropAction, ReadString, emit, hdata, splitLine_some _ _ hpre, hans, getSpec, hsp,
        hfd, Event.isDelete]

/-! ## The `drop` confirmation protocol -/

/-- C1, as stated, fails: on the input `y` with no newline after it the
confirmation input trims to exactly `y` and resolution would succeed, yet the
action ends with the read error and the delete operation is invoked zero
times. -/
theorem drop_unterminated_y_not_deleted :
    TrimSpace (ReadString { input := stdin "y" }).1.1 = ['y'] ∧
    (getSpec mainEnv "/tmp/x" { input := stdin "y" }).1 = (⟨"/tmp/x"⟩, none) ∧
    (dropAction mainEnv "/tmp/x" { input := stdin "y" }).1 = some "EOF" ∧
    (dropAction mainEnv "/tmp/x" { input := stdin "y" }).2.events.filter Event.isDelete = [] := by
  decide

/-- C1, amended: assuming database resolution succeeds with handle `s`, for
every content of the input stream: when the stream holds a line ended by a
newline, the delete operation is invoked exactly once, against the local
dataset of `s`, if the line trims to exactly `y`, and zero times otherwise;
when the stream holds no newline at all, it is invoked zero times. -/
theorem drop_deletes_iff_confirmed_line (env : Env) (sps : String) (st : St) (s : Spec)
    (hres : (getSpec env sps st).1 = (s, none)) :
    (∀ pre rest, '\n' ∉ pre → st.input.data = pre ++ '\n' :: rest →
      (dropAction env sps st).2.events.filter Event.isDelete =
        st.events.filter Event.isDelete ++
          (if TrimSpace (pre ++ ['\n']) = ['y'] then [Event.delete s env.LOCAL_DATASET]
           else [])) ∧
    ('\n' ∉ st.input.data →
      (dropAction env sps st).2.events.filter Event.isDelete =
        st.events.filter Event.isDelete) := by
  refine ⟨fun pre rest hpre hdata => ?_, fun hno => ?_⟩
  · by_cases hans : TrimSpace (pre ++ ['\n']) = ['y']
    · rw [if_pos hans]
      exact (dropAction_confirmed env sps st pre rest s hpre hdata hans hres).2
    · rw [if_neg hans, dropAction_declined env sps st pre rest hpre hdata hans]
      simp [promptEvents, Event.isDelete]
  · rw [dropAction_readError env sps st hno]
    simp [promptEvents, Event.isDelete]

/-- Witness for C1: the answer ` y ` followed by a newline deletes the local
dataset of the resolved handle exactly once. -/
theorem drop_deletes_iff_confirmed_line_witness :
    (getSpec mainEnv "/tmp/x" { input := stdin " y \n" }).1 = (⟨"/tmp/x"⟩, none) ∧
    (dropAction mainEnv "/tmp/x" { input := stdin " y \n" }).2.events.filter Event.isDelete =
      [Event.delete ⟨"/tmp/x"⟩ "local"] :=
  ⟨by decide,
    (drop_deletes_iff_confirmed_line mainEnv "/tmp/x" { input := stdin " y \n" } ⟨"/tmp/x"⟩
      (by decide)).1 [' ', 'y', ' '] [] (by decide) (by decide)⟩

/-- C5: for every input stream of the `drop` action: when the stream holds no
newline (reading the line fails, the empty stream included), the action returns
the read error and makes no call beyond the prompt, so neither resolution nor
deletion is attempted; when a line is read and its trimmed value is not
exactly `y`, the action returns no error, again with no call beyond the
prompt. -/
theorem drop_not_confirmed (env : Env) (sps : String) (st : St) :
    ('\n' ∉ st.input.data →
      (dropAction env sps st).1 = some st.input.err ∧
      (dropAction env sps st).2.events =
        st.events ++ [.writeString dropWarning, .flush, .readString] ∧
      (dropAction env sps st).2.resolutions = st.resolutions) ∧
    (∀ pre rest, '\n' ∉ pre → st.input.data = pre ++ '\n' :: rest →
      TrimSpace (pre ++ ['\n']) ≠ ['y'] →
      (dropAction env sps st).1 = none ∧
      (dropAction env sps st).2.events =
        st.events ++ [.writeString dropWarning, .flush, .readString] ∧
      (dropAction env sps st).2.resolutions = st.resolutions) := by
  refine ⟨fun hno => ?_, fun pre rest hpre hdata hans => ?_⟩
  · rw [dropAction_readError env sps st hno]
    simp [promptEvents]
  · rw [dropAction_declined env sps st pre rest hpre hdata hans]
    simp [promptEvents]

/-- Witness for C5: the empty stream fails with the read error, and the
answers `Y`, `yes`, `n` and the empty line are declined without error. -/
theorem drop_not_confirmed_witness :
    (dropAction mainEnv "/tmp/x" { input := stdin "" }).1 = some "EOF" ∧
    (dropAction mainEnv "/tmp/x" { input := stdin "Y\n" }).1 = none ∧
    (dropAction mainEnv "/tmp/x" { input := stdin "yes\n" }).1 = none ∧
    (dropAction mainEnv "/tmp/x" { input := stdin "n\n" }).1 = none ∧
    (dropAction mainEnv "/tmp/x" { input := stdin "\n" }).1 = none :=
  ⟨((drop_not_confirmed mainEnv "/tmp/x" { input := stdin "" }).1 (by decide)).1,
   ((drop_not_confirmed mainEnv "/tmp/x" { input := stdin "Y\n" }).2 ['Y'] []
      (by decide) (by decide) (by decide)).1,
   ((drop_not_confirmed mainEnv "/tmp/x" { input := stdin "yes\n" }).2 ['y', 'e', 's'] []
      (by decide) (by decide) (by decide)).1,
   ((drop_not_confirmed mainEnv "/tmp/x" { input := stdin "n\n" }).2 ['n'] []
      (by decide) (by decide) (by decide)).1,
   ((drop_not_confirmed mainEnv "/tmp/x" { input := stdin "\n" }).2 [] []
      (by decide) (by decide) (by decide)).1⟩

/-! ## The spec resolver -/

/-- C10: a call of `getSpec` whose underlying resolution fails returns the
error with the empty spec value and leaves the cache unset, and the next call
performs the underlying resolution again, returning whatever that attempt
yields. -/
theorem getSpec_failure_not_cached (env : Env) (sps : String) (st : St) (err : Error)
    (hsp : st.sp = none) (hfail : env.ForDatabase st.resolutions sps = .error err) :
    (getSpec env sps st).1 = (Spec.empty, some err) ∧
    (getSpec env sps st).2.sp = none ∧
    (getSpec env sps st).2.events = st.events ++ [.forDatabase sps] ∧
    (getSpec env sps (getSpec env sps st).2).2.events =
      st.events ++ [.forDatabase sps, .forDatabase sps] ∧
    (getSpec env sps (getSpec env sps st).2).2.resolutions = st.resolutions + 2 ∧
    (getSpec env sps (getSpec env sps st).2).1 =
      (match env.ForDatabase (st.resolutions + 1) sps with
       | .error err2 => (Spec.empty, some err2)
       | .ok s => (s, none)) := by
  have h1 : getSpec env sps st =
      ((Spec.empty, some err),
        { emit (.forDatabase sps) st with resolutions := st.resolutions + 1 }) := by
    simp [getSpec, hsp, hfail]
  rw [h1]
  refine ⟨rfl, by simp [emit, hsp], by simp [emit], ?_, ?_, ?_⟩
  · cases hfd : env.ForDatabase (st.resolutions + 1) sps <;> simp [getSpec, emit, hsp, hfd]
  · cases hfd : env.ForDatabase (st.resolutions + 1) sps <;> simp [getSpec, emit, hsp, hfd]
  · cases hfd : env.ForDatabase (st.resolutions + 1) sps <;> simp [getSpec, emit, hsp, hfd]

/-- Witness for C10: with a collaborator whose first resolution fails, the
first call returns that error, the cache stays unset, and the second call
resolves again and succeeds. -/
theorem getSpec_failure_not_cached_witness :
    ({ input := stdin "" } : St).sp = none ∧
    flakyEnv.ForDatabase 0 "/tmp/x" = .error "database is locked" ∧
    (getSpec flakyEnv "/tmp/x" { input := stdin "" }).1 =
      (Spec.empty, some "database is locked") ∧
    (getSpec flakyEnv "/tmp/x" { input := stdin "" }).2.sp = none ∧
    (getSpec flakyEnv "/tmp/x" (getSpec flakyEnv "/tmp/x" { input := stdin "" }).2).1 =
      (⟨"/tmp/x"⟩, none) :=
  have h := getSpec_failure_not_cached flakyEnv "/tmp/x" { input := stdin "" }
    "database is locked" rfl rfl
  ⟨rfl, rfl, h.1, h.2.1, h.2.2.2.2.2⟩

/-! ## The orchestrator -/

/-- C8: for every invocation of `impl` with zero arguments, whatever the
collaborators and the input stream, the only call made is the printing of
usage, and `impl` returns: no parsing, no action, no resolution, no capture
start or stop, no call of `exit`. -/
theorem impl_no_args (env : Env) (input : Reader) :
    impl env [] input = (.returned, { input := input, events := [.usage] }) := by
  simp [impl, deferred, stopTrace, stopCPUProfile, emit]

/-- C9: when the version flag is set and `exit` ends the process, as it does
in `main`, the run consists of printing the version and `exit(0)`, whatever
else the argument list holds: no action runs, nothing is resolved or deleted,
no capture is started. -/
theorem impl_version (env : Env) (args : List String) (input : Reader)
    (hexit : env.exit = .osExit) (hargs : args ≠ []) (hv : (env.parse args).v = true) :
    impl env args input =
      (.exited 0, { input := input, events := [.printlnVersion, .exit 0] }) := by
  have hlen : args.length ≠ 0 := by simpa using hargs
  simp [impl, hlen, Parse, PreAction, callExit, hv, hexit, emit]

/-- Witness for C9: `--version` alone, and `--version` in front of a complete
`drop` invocation with capture requested. -/
theorem impl_version_witness :
    mainEnv.exit = .osExit ∧
    (mainEnv.parse ["--version"]).v = true ∧
    impl mainEnv ["--version"] (stdin "y\n") =
      (.exited 0, { input := stdin "y\n", events := [.printlnVersion, .exit 0] }) ∧
    impl mainEnv ["--version", "--db", "/tmp/x", "--trace", "t.out", "drop"] (stdin "y\n") =
      (.exited 0, { input := stdin "y\n", events := [.printlnVersion, .exit 0] }) :=
  ⟨rfl, by decide,
    impl_version mainEnv ["--version"] (stdin "y\n") rfl (by decide) (by decide),
    impl_version mainEnv ["--version", "--db", "/tmp/x", "--trace", "t.out", "drop"]
      (stdin "y\n") rfl (by decide) (by decide)⟩

/-! ## Diagnostic capture -/

/-- C3 fails on the code: with a trace and a CPU profile started, a `drop`
whose confirmation cannot be read makes `Parse` return an error; `impl` prints
it and calls `exit(1)`, which ends the process: neither `trace.Stop` nor
`pprof.StopCPUProfile` is called.  In general, whenever `Parse` returns an
error and `exit` ends the process, the run ends with the error print and
`exit(1)`, the deferred stops not being run. -/
theorem impl_error_exit_skips_stops :
    impl mainEnv ["--db", "/tmp/x", "--trace", "t.out", "--cpu", "c.out", "drop"] (stdin "") =
      (.exited 1,
        { input := stdin "",
          events := [.rlogInit false, .traceStart "t.out", .startCPUProfile (some "t.out"),
            .signalNotify, .goWatcher, .writeString dropWarning, .flush, .readString,
            .errPrintln "EOF", .exit 1] }) ∧
    Event.traceStop ∉
      (impl mainEnv ["--db", "/tmp/x", "--trace", "t.out", "--cpu", "c.out", "drop"]
        (stdin "")).2.events ∧
    Event.stopCPUProfile ∉
      (impl mainEnv ["--db", "/tmp/x", "--trace", "t.out", "--cpu", "c.out", "drop"]
        (stdin "")).2.events ∧
    (∀ (env : Env) (args : List String) (input : Reader) (err : Error) (st1 : St),
      env.exit = .osExit → args ≠ [] →
      Parse env (env.parse args) { input := input } = (.ret (some err), st1) →
      impl env args input =
        (.exited 1, { st1 with events := st1.events ++ [.errPrintln err, .exit 1] })) := by
  refine ⟨by decide, by decide, by decide, fun env args input err st1 hexit hargs hp => ?_⟩
  have hlen : args.length ≠ 0 := by simpa using hargs
  simp [impl, hlen, hp, callExit, hexit, emit]

theorem dropAction_mem (env : Env) (sps : String) (st : St) (e : Event)
    (hmem : e ∈ (dropAction env sps st).2.events) :
    e ∈ st.events ∨ e.isDropCall = true := by
  unfold dropAction ReadString getSpec at hmem
  cases hl : splitLine st.input.data with
  | none =>
    simp [hl, emit] at hmem
    rcases hmem with h | h | h | h <;> simp [h, Event.isDropCall]
  | some p =>
    obtain ⟨line, rest⟩ := p
    by_cases hans : TrimSpace line = ['y']
    · cases hsp : st.sp with
      | some s =>
        simp [hl, emit, hans, hsp] at hmem
        rcases hmem with h | h | h | h | h | h | h | h <;> simp [h, Event.isDropCall]
      | none =>
        cases hfd : env.ForDatabase st.resolutions sps with
        | error err =>
          simp [hl, emit, hans, hsp, hfd] at hmem
          rcases hmem with h | h | h | h | h | h <;> simp [h, Event.isDropCall]
        | ok s =>
          simp [hl, emit, hans, hsp, hfd] at hmem
          rcases hmem with h | h | h | h | h | h | h | h | h <;> simp [h, Event.isDropCall]
    · simp [hl, emit, hans] at hmem
      rcases hmem with h | h | h | h <;> simp [h, Event.isDropCall]

theorem serveAction_mem (env : Env) (sps : String) (port : Int) (st : St) (e : Event)
    (hmem : e ∈ (serveAction env sps port st).2.events) :
    e ∈ st.events ∨ e.isServeCall = true := by
  simp [serveAction, emit] at hmem
  rcases hmem with h | h | h | h | h <;> simp [h, Event.isServeCall]

theorem PreAction_mem (env : Env) (pc : Parsed) (st : St) (e : Event)
    (hmem : e ∈ (PreAction env pc st).2.events) :
    e ∈ st.events ∨ e = .printlnVersion ∨ e = .exit 0 := by
  unfold PreAction callExit at hmem
  cases hv : pc.v with
  | false => simp [hv] at hmem; exact Or.inl hmem
  | true =>
    cases hx : env.exit <;> simp [hv, hx, emit] at hmem <;> tauto

theorem appAction_traceStart_mem (env : Env) (pc : Parsed) (st : St) (w : Sink)
    (hmem : Event.traceStart w ∈ (appAction env pc st).2.events) :
    Event.traceStart w ∈ st.events ∨ pc.tf = some w := by
  unfold appAction startTrace startProfile at hmem
  cases hc : pc.SelectedCommand with
  | none => simp [hc] at hmem; exact Or.inl hmem
  | some cmd =>
    cases htf : pc.tf with
    | none =>
      cases hcpu : pc.cpu with
      | none => simp [hc, htf, hcpu, emit] at hmem ⊢; exact hmem
      | some c =>
        cases hs : env.StartCPUProfile none <;>
          simp [hc, htf, hcpu, emit, hs] at hmem ⊢ <;> exact hmem
    | some f =>
      cases ht : env.traceStart f with
      | some err => simp [hc, htf, emit, ht] at hmem ⊢; tauto
      | none =>
        cases hcpu : pc.cpu with
        | none => simp [hc, htf, hcpu, emit, ht] at hmem ⊢; tauto
        | some c =>
          cases hs : env.StartCPUProfile (some f) <;>
            simp [hc, htf, hcpu, emit, hs, ht] at hmem ⊢ <;> tauto

theorem appAction_startCPUProfile_mem (env : Env) (pc : Parsed) (st : St) (w : Option Sink)
    (hmem : Event.startCPUProfile w ∈ (appAction env pc st).2.events) :
    Event.startCPUProfile w ∈ st.events ∨ (pc.cpu ≠ none ∧ w = pc.tf) := by
  unfold appAction startTrace startProfile at hmem
  cases hc : pc.SelectedCommand with
  | none => simp [hc] at hmem; exact Or.inl hmem
  | some cmd =>
    cases htf : pc.tf with
    | none =>
      cases hcpu : pc.cpu with
      | none => simp [hc, htf, hcpu, emit] at hmem ⊢; exact hmem
      | some c =>
        cases hs : env.StartCPUProfile none <;>
          simp [hc, htf, hcpu, emit, hs] at hmem ⊢ <;> tauto
    | some f =>
      cases ht : env.traceStart f with
      | some err => simp [hc, htf, emit, ht] at hmem ⊢; tauto
      | none =>
        cases hcpu : pc.cpu with
        | none => simp [hc, htf, hcpu, emit, ht] at hmem ⊢; tauto
        | some c =>
          cases hs : env.StartCPUProfile (some f) <;>
            simp [hc, htf, hcpu, emit, hs, ht] at hmem ⊢ <;> tauto

theorem Parse_mem (env : Env) (pc : Parsed) (st : St) (e : Event)
    (hmem : e ∈ (Parse env pc st).2.events) :
    e ∈ (PreAction env pc st).2.events ∨
    e ∈ (appAction env pc (PreAction env pc st).2).2.events ∨
    e = .writeUsage ∨ e = .exit 0 ∨ e.isDropCall = true ∨ e.isServeCall = true := by
  unfold Parse at hmem
  rcases hp : PreAction env pc st with ⟨_ | code, st1⟩
  · simp only [hp] at hmem ⊢
    cases herr : pc.err with
    | some err => simp [herr] at hmem; exact Or.inl hmem
    | none =>
      cases hsps : pc.sps with
      | none => simp [herr, hsps] at hmem; exact Or.inl hmem
      | some sps =>
        rcases ha : appAction env pc st1 with ⟨_ | err, st2⟩
        · cases hc : pc.SelectedCommand with
          | none =>
            cases hx : env.exit <;>
              simp [herr, hsps, ha, hc, emit, callExit, hx] at hmem ⊢ <;> tauto
          | some cmd =>
            cases cmd with
            | serve port =>
              have hs := serveAction_mem env sps port st2 e
              rcases hsv : serveAction env sps port st2 with ⟨_ | err, st3⟩ <;>
                simp [herr, hsps, ha, hc, hsv] at hmem hs ⊢ <;> tauto
            | drop =>
              have hd := dropAction_mem env sps st2 e
              rcases hdr : dropAction env sps st2 with ⟨r, st3⟩
              simp [herr, hsps, ha, hc, hdr] at hmem hd ⊢
              tauto
        · simp [herr, hsps, ha] at hmem ⊢
          exact Or.inr (Or.inl hmem)
  · simp [hp] at hmem ⊢
    exact Or.inl hmem

theorem Parse_traceStart_mem (env : Env) (pc : Parsed) (st : St) (w : Sink)
    (hmem : Event.traceStart w ∈ (Parse env pc st).2.events) :
    Event.traceStart w ∈ st.events ∨ pc.tf = some w := by
  rcases Parse_mem env pc st _ hmem with h | h | h | h | h | h
  · rcases PreAction_mem env pc st _ h with h | h | h
    · exact Or.inl h
    · cases h
    · cases h
  · rcases appAction_traceStart_mem env pc _ w h with h | h
    · rcases PreAction_mem env pc st _ h with h | h | h
      · exact Or.inl h
      · cases h
      · cases h
    · exact Or.inr h
  · cases h
  · cases h
  · simp [Event.isDropCall] at h
  · simp [Event.isServeCall] at h

theorem Parse_startCPUProfile_mem (env : Env) (pc : Parsed) (st : St) (w : Option Sink)
    (hmem : Event.startCPUProfile w ∈ (Parse env pc st).2.events) :
    Event.startCPUProfile w ∈ st.events ∨ (pc.cpu ≠ none ∧ w = pc.tf) := by
  rcases Parse_mem env pc st _ hmem with h | h | h | h | h | h
  · rcases PreAction_mem env pc st _ h with h | h | h
    · exact Or.inl h
    · cases h
    · cases h
  · rcases appAction_startCPUProfile_mem env pc _ w h with h | h
    · rcases PreAction_mem env pc st _ h with h | h | h
      · exact Or.inl h
      · cases h
      · cases h
    · exact Or.inr h
  · cases h
  · cases h
  · simp [Event.isDropCall] at h
  · simp [Event.isServeCall] at h

theorem impl_mem (env : Env) (args : List String) (input : Reader) (e : Event)
    (hmem : e ∈ (impl env args input).2.events) :
    e = .usage ∨
    (args ≠ [] ∧
      (e ∈ (Parse env (env.parse args) { input := input }).2.events ∨
        (∃ err, e = .errPrintln err) ∨ e = .exit 1 ∨ e = .traceStop ∨ e = .stopCPUProfile)) := by
  unfold impl at hmem
  by_cases hlen : args.length = 0
  · simp [hlen, deferred, stopTrace, stopCPUProfile, emit] at hmem
    exact Or.inl hmem
  · have hargs : args ≠ [] := by simpa using hlen
    refine Or.inr ⟨hargs, ?_⟩
    simp only [hlen, if_false] at hmem
    rcases hp : Parse env (env.parse args) { input := input } with ⟨r, st1⟩
    simp only [hp] at hmem ⊢
    cases r with
    | exited code => simp at hmem; exact Or.inl hmem
    | blocked => simp at hmem; exact Or.inl hmem
    | ret err =>
      cases err with
      | none =>
        cases htf : (env.parse args).tf <;> cases hcpu : (env.parse args).cpu <;>
          simp [deferred, stopTrace, stopCPUProfile, emit, htf, hcpu] at hmem ⊢ <;> tauto
      | some err =>
        cases hx : env.exit <;>
        cases htf : (env.parse args).tf <;> cases hcpu : (env.parse args).cpu <;>
          simp [deferred, stopTrace, stopCPUProfile, callExit, emit, htf, hcpu, hx] at hmem ⊢ <;>
          tauto

/-- C4 fails on the code: the CPU profile is started on the trace file, not on
the file given by `--cpu`: with both flags it is started on the `--trace`
file, with `--cpu` alone on a nil file; and in every run of `impl` a profile
start, if any, is made on `*tf`. -/
theorem cpu_profile_started_on_trace_sink :
    (impl mainEnv ["--db", "/tmp/x", "--trace", "t.out", "--cpu", "c.out", "drop"]
        (stdin "n\n")).2.events =
      [.rlogInit false, .traceStart "t.out", .startCPUProfile (some "t.out"),
        .signalNotify, .goWatcher, .writeString dropWarning, .flush, .readString,
        .stopCPUProfile, .traceStop] ∧
    (impl mainEnv ["--db", "/tmp/x", "--cpu", "c.out", "drop"] (stdin "n\n")).2.events =
      [.rlogInit false, .startCPUProfile none,
        .signalNotify, .goWatcher, .writeString dropWarning, .flush, .readString,
        .stopCPUProfile] ∧
    (∀ (env : Env) (args : List String) (input : Reader) (w : Option Sink),
      Event.startCPUProfile w ∈ (impl env args input).2.events →
        w = (env.parse args).tf) := by
  refine ⟨by decide, by decide, fun env args input w hmem => ?_⟩
  rcases impl_mem env args input _ hmem with h | ⟨_, h | ⟨err, h⟩ | h | h | h⟩
  · cases h
  · rcases Parse_startCPUProfile_mem env _ _ w h with h | h
    · simp at h
    · exact h.2
  · cases h
  · cases h
  · cases h
  · cases h

/-- C6: once the application action has started the watcher (it returned nil
with a command selected), the capture streams of the supplied sinks have been
started; and whenever the watcher body then runs, it calls `trace.Stop` if the
trace sink was supplied, then `pprof.StopCPUProfile` if the CPU sink was
supplied, then `os.Exit(1)`, in that order and nothing else: with both
streams started, trace stop, profile stop, exit with status 1. -/
theorem signal_stops_trace_then_profile (env : Env) (pc : Parsed) (st st1 later : St)
    (hcmd : pc.SelectedCommand ≠ none) (harmed : appAction env pc st = (none, st1)) :
    Event.goWatcher ∈ st1.events ∧
    (∀ f, pc.tf = some f → Event.traceStart f ∈ st1.events) ∧
    (pc.cpu ≠ none → Event.startCPUProfile pc.tf ∈ st1.events) ∧
    signalWatcher pc.tf pc.cpu later =
      (.exited 1,
        { later with
          events := later.events ++ (if pc.tf ≠ none then [Event.traceStop] else []) ++
            (if pc.cpu ≠ none then [Event.stopCPUProfile] else []) ++ [Event.osExit 1] }) ∧
    (pc.tf ≠ none → pc.cpu ≠ none →
      (signalWatcher pc.tf pc.cpu later).2.events =
        later.events ++ [.traceStop, .stopCPUProfile, .osExit 1]) := by
  refine ⟨?_, ?_, ?_, ?_, ?_⟩
  · unfold appAction startTrace startProfile at harmed
    cases hc : pc.SelectedCommand with
    | none => exact absurd hc hcmd
    | some cmd =>
      cases htf : pc.tf with
      | none =>
        cases hcpu : pc.cpu with
        | none => simp [hc, htf, hcpu, emit] at harmed; simp [← harmed]
        | some c =>
          cases hs : env.StartCPUProfile none <;>
            simp [hc, htf, hcpu, emit, hs] at harmed; simp [← harmed]
      | some f =>
        cases ht : env.traceStart f with
        | some err => simp [hc, htf, emit, ht] at harmed
        | none =>
          cases hcpu : pc.cpu with
          | none => simp [hc, htf, hcpu, emit, ht] at harmed; simp [← harmed]
          | some c =>
            cases hs : env.StartCPUProfile (some f) <;>
              simp [hc, htf, hcpu, emit, hs, ht] at harmed; simp [← harmed]
  · intro f htf
    unfold appAction startTrace startProfile at harmed
    cases hc : pc.SelectedCommand with
    | none => exact absurd hc hcmd
    | some cmd =>
      cases ht : env.traceStart f with
      | some err => simp [hc, htf, emit, ht] at harmed
      | none =>
        cases hcpu : pc.cpu with
        | none => simp [hc, htf, hcpu, emit, ht] at harmed; simp [← harmed]
        | some c =>
          cases hs : env.StartCPUProfile (some f) <;>
            simp [hc, htf, hcpu, emit, hs, ht] at harmed; simp [← harmed]
  · intro hcpu
    obtain ⟨c, hcpu⟩ := Option.ne_none_iff_exists'.mp hcpu
    unfold appAction startTrace startProfile at harmed
    cases hc : pc.SelectedCommand with
    | none => exact absurd hc hcmd
    | some cmd =>
      cases htf : pc.tf with
      | none =>
        cases hs : env.StartCPUProfile none <;>
          simp [hc, htf, hcpu, emit, hs] at harmed; simp [← harmed]
      | some f =>
        cases ht : env.traceStart f with
        | some err => simp [hc, htf, emit, ht] at harmed
        | none =>
          cases hs : env.StartCPUProfile (some f) <;>
            simp [hc, htf, hcpu, emit, hs, ht] at harmed; simp [← harmed]
  · cases pc.tf <;> cases pc.cpu <;> simp [signalWatcher, stopTrace, stopCPUProfile, emit]
  · intro htf hcpu
    simp [signalWatcher, stopTrace, stopCPUProfile, emit, htf, hcpu]

/-- Witness for C6: `serve` with both sinks supplied; a signal arriving while
the listener serves stops the trace, then the profile, then exits with 1. -/
theorem signal_stops_trace_then_profile_witness :
    (mainEnv.parse ["--db", "/tmp/x", "--trace", "t.out", "--cpu", "c.out", "serve"]).SelectedCommand
      ≠ none ∧
    (appAction mainEnv
      (mainEnv.parse ["--db", "/tmp/x", "--trace", "t.out", "--cpu", "c.out", "serve"])
      { input := stdin "" }).1 = none ∧
    (impl mainEnv ["--db", "/tmp/x", "--trace", "t.out", "--cpu", "c.out", "serve"]
      (stdin "")).1 = .blocked ∧
    (signalWatcher (some "t.out") (some "c.out")
      (impl mainEnv ["--db", "/tmp/x", "--trace", "t.out", "--cpu", "c.out", "serve"]
        (stdin "")).2).2.events =
      [.rlogInit true, .traceStart "t.out", .startCPUProfile (some "t.out"),
        .signalNotify, .goWatcher, .logPrintf 7001, .newService "/tmp/x", .httpHandle,
        .listenAndServe 7001, .traceStop, .stopCPUProfile, .osExit 1] :=
  ⟨by decide, by decide, by decide,
    (signal_stops_trace_then_profile mainEnv
      (mainEnv.parse ["--db", "/tmp/x", "--trace", "t.out", "--cpu", "c.out", "serve"])
      { input := stdin "" }
      (appAction mainEnv
        (mainEnv.parse ["--db", "/tmp/x", "--trace", "t.out", "--cpu", "c.out", "serve"])
        { input := stdin "" }).2
      (impl mainEnv ["--db", "/tmp/x", "--trace", "t.out", "--cpu", "c.out", "serve"]
        (stdin "")).2
      (by decide) (by decide)).2.2.2.2 (by decide) (by decide)⟩

theorem foldl_call_tracing (env : Env) (evs : List Event) (r : Runtime)
    (hr : r.tracing = false) (hno : ∀ w, Event.traceStart w ∉ evs) :
    (evs.foldl (Runtime.call env) r).tracing = false := by
  induction evs generalizing r with
  | nil => simpa using hr
  | cons e es ih =>
    simp only [List.foldl_cons]
    apply ih
    · cases e <;> simp [Runtime.call, hr]
      exact absurd (List.mem_cons_self _ _) (hno _)
    · intro w hw
      exact hno w (List.mem_cons_of_mem _ hw)

theorem foldl_call_profiling (env : Env) (evs : List Event) (r : Runtime)
    (hr : r.profiling = false) (hno : ∀ w, Event.startCPUProfile w ∉ evs) :
    (evs.foldl (Runtime.call env) r).profiling = false := by
  induction evs generalizing r with
  | nil => simpa using hr
  | cons e es ih =>
    simp only [List.foldl_cons]
    apply ih
    · cases e <;> simp [Runtime.call, hr]
      exact absurd (List.mem_cons_self _ _) (hno _)
    · intro w hw
      exact hno w (List.mem_cons_of_mem _ hw)

theorem runtimeAfter_traceStop (env : Env) (evs : List Event)
    (hno : ∀ w, Event.traceStart w ∉ evs) :
    runtimeAfter env (evs ++ [.traceStop]) = runtimeAfter env evs := by
  have h := foldl_call_tracing env evs {} rfl hno
  unfold runtimeAfter at *
  rw [List.foldl_append]
  simp only [List.foldl_cons, List.foldl_nil, Runtime.call]
  generalize List.foldl (Runtime.call env) {} evs = r at h ⊢
  cases r
  simp_all

theorem runtimeAfter_stopCPUProfile (env : Env) (evs : List Event)
    (hno : ∀ w, Event.startCPUProfile w ∉ evs) :
    runtimeAfter env (evs ++ [.stopCPUProfile]) = runtimeAfter env evs := by
  have h := foldl_call_profiling env evs {} rfl hno
  unfold runtimeAfter at *
  rw [List.foldl_append]
  simp only [List.foldl_cons, List.foldl_nil, Runtime.call]
  generalize List.foldl (Runtime.call env) {} evs = r at h ⊢
  cases r
  simp_all

theorem appAction_stop_mem (env : Env) (pc : Parsed) (st : St) (e : Event)
    (he : e = .traceStop ∨ e = .stopCPUProfile)
    (hmem : e ∈ (appAction env pc st).2.events) : e ∈ st.events := by
  unfold appAction startTrace startProfile at hmem
  rcases he with rfl | rfl
  all_goals
    cases hc : pc.SelectedCommand with
    | none => simp [hc] at hmem; exact hmem
    | some cmd =>
      cases htf : pc.tf with
      | none =>
        cases hcpu : pc.cpu with
        | none => simp [hc, htf, hcpu, emit] at hmem; exact hmem
        | some c =>
          cases hs : env.StartCPUProfile none <;>
            simp [hc, htf, hcpu, emit, hs] at hmem <;> exact hmem
      | some f =>
        cases ht : env.traceStart f with
        | some err => simp [hc, htf, emit, ht] at hmem; exact hmem
        | none =>
          cases hcpu : pc.cpu with
          | none => simp [hc, htf, hcpu, emit, ht] at hmem; exact hmem
          | some c =>
            cases hs : env.StartCPUProfile (some f) <;>
              simp [hc, htf, hcpu, emit, hs, ht] at hmem <;> exact hmem

theorem Parse_stop_mem (env : Env) (pc : Parsed) (st : St) (e : Event)
    (he : e = .traceStop ∨ e = .stopCPUProfile)
    (hmem : e ∈ (Parse env pc st).2.events) : e ∈ st.events := by
  rcases Parse_mem env pc st _ hmem with h | h | h | h | h | h
  · rcases PreAction_mem env pc st _ h with h | h | h
    · exact h
    · rcases he with rfl | rfl <;> cases h
    · rcases he with rfl | rfl <;> cases h
  · rcases PreAction_mem env pc st _ (appAction_stop_mem env pc _ e he h) with h | h | h
    · exact h
    · rcases he with rfl | rfl <;> cases h
    · rcases he with rfl | rfl <;> cases h
  · rcases he with rfl | rfl <;> cases h
  · rcases he with rfl | rfl <;> cases h
  · rcases he with rfl | rfl <;> simp [Event.isDropCall] at h
  · rcases he with rfl | rfl <;> simp [Event.isServeCall] at h

theorem impl_traceStop_mem (env : Env) (args : List String) (input : Reader)
    (hmem : Event.traceStop ∈ (impl env args input).2.events) :
    args ≠ [] ∧ (env.parse args).tf ≠ none := by
  unfold impl at hmem
  by_cases hlen : args.length = 0
  · simp [hlen, deferred, stopTrace, stopCPUProfile, emit] at hmem
  · refine ⟨by simpa using hlen, fun htf => ?_⟩
    simp only [hlen, if_false] at hmem
    have hno : Event.traceStop ∉ (Parse env (env.parse args) { input := input }).2.events :=
      fun h => by simpa using Parse_stop_mem env _ _ _ (Or.inl rfl) h
    rcases hp : Parse env (env.parse args) { input := input } with ⟨r, st1⟩
    rw [hp] at hmem hno
    cases r with
    | exited code => exact hno hmem
    | blocked => exact hno hmem
    | ret err =>
      cases err with
      | none =>
        cases hcpu : (env.parse args).cpu <;>
          simp [deferred, stopTrace, stopCPUProfile, emit, htf, hcpu] at hmem <;>
          exact hno hmem
      | some err =>
        cases hx : env.exit <;> cases hcpu : (env.parse args).cpu <;>
          simp [deferred, stopTrace, stopCPUProfile, callExit, emit, htf, hcpu, hx] at hmem <;>
          exact hno hmem

theorem impl_stopCPUProfile_mem (env : Env) (args : List String) (input : Reader)
    (hmem : Event.stopCPUProfile ∈ (impl env args input).2.events) :
    args ≠ [] ∧ (env.parse args).cpu ≠ none := by
  unfold impl at hmem
  by_cases hlen : args.length = 0
  · simp [hlen, deferred, stopTrace, stopCPUProfile, emit] at hmem
  · refine ⟨by simpa using hlen, fun hcpu => ?_⟩
    simp only [hlen, if_false] at hmem
    have hno : Event.stopCPUProfile ∉
        (Parse env (env.parse args) { input := input }).2.events :=
      fun h => by simpa using Parse_stop_mem env _ _ _ (Or.inr rfl) h
    rcases hp : Parse env (env.parse args) { input := input } with ⟨r, st1⟩
    rw [hp] at hmem hno
    cases r with
    | exited code => exact hno hmem
    | blocked => exact hno hmem
    | ret err =>
      cases err with
      | none =>
        cases htf : (env.parse args).tf <;>
          simp [deferred, stopTrace, stopCPUProfile, emit, htf, hcpu] at hmem <;>
          exact hno hmem
      | some err =>
        cases hx : env.exit <;> cases htf : (env.parse args).tf <;>
          simp [deferred, stopTrace, stopCPUProfile, callExit, emit, htf, hcpu, hx] at hmem <;>
          exact hno hmem

/-- C7, as stated, fails: in a run with the trace sink supplied and no command
given, `trace.Start` is never called, the calls of `exit` return to `impl`, and
the deferred `stopTrace` calls `trace.Stop`; the same happens after the version
short-circuit; likewise `stopCPUProfile` calls `pprof.StopCPUProfile` with the
CPU sink supplied and the profile never started. -/
theorem stop_called_without_start :
    impl returningEnv ["--db", "/tmp/x", "--trace", "t.out"] (stdin "") =
      (.returned,
        { input := stdin "",
          events := [.writeUsage, .exit 0, .errPrintln "command not specified", .exit 1,
            .traceStop] }) ∧
    impl returningEnv ["--version", "--trace", "t.out"] (stdin "") =
      (.returned,
        { input := stdin "",
          events := [.printlnVersion, .exit 0, .errPrintln "required flag --db not provided",
            .exit 1, .traceStop] }) ∧
    impl returningEnv ["--db", "/tmp/x", "--cpu", "c.out"] (stdin "") =
      (.returned,
        { input := stdin "",
          events := [.writeUsage, .exit 0, .errPrintln "command not specified", .exit 1,
            .stopCPUProfile] }) := by
  decide

/-- C7, amended: whenever the corresponding start was never invoked, a call
of `stopTrace` (resp. `stopCPUProfile`) returns, having changed nothing but
the record of calls: it does not fail or panic, and it leaves the capture state
of the runtime as it was, not running.  It performs no underlying stop call
when its sink was not supplied, and exactly one, which finds nothing to stop,
when the sink was supplied and the start never reached.  In every run of
`impl` a stream whose sink was not supplied is neither started nor stopped. -/
theorem stop_without_start_harmless :
    (∀ (env : Env) (tf : Option Sink) (st : St), (∀ w, Event.traceStart w ∉ st.events) →
      stopTrace tf st =
        { st with events := st.events ++ (if tf ≠ none then [Event.traceStop] else []) } ∧
      runtimeAfter env (stopTrace tf st).events = runtimeAfter env st.events ∧
      (runtimeAfter env (stopTrace tf st).events).tracing = false) ∧
    (∀ (env : Env) (cpu : Option Sink) (st : St),
      (∀ w, Event.startCPUProfile w ∉ st.events) →
      stopCPUProfile cpu st =
        { st with
          events := st.events ++ (if cpu ≠ none then [Event.stopCPUProfile] else []) } ∧
      runtimeAfter env (stopCPUProfile cpu st).events = runtimeAfter env st.events ∧
      (runtimeAfter env (stopCPUProfile cpu st).events).profiling = false) ∧
    (∀ (env : Env) (args : List String) (input : Reader),
      (∀ w, Event.traceStart w ∈ (impl env args input).2.events →
        args ≠ [] ∧ (env.parse args).tf = some w) ∧
      (∀ w, Event.startCPUProfile w ∈ (impl env args input).2.events →
        args ≠ [] ∧ (env.parse args).cpu ≠ none) ∧
      (Event.traceStop ∈ (impl env args input).2.events →
        args ≠ [] ∧ (env.parse args).tf ≠ none) ∧
      (Event.stopCPUProfile ∈ (impl env args input).2.events →
        args ≠ [] ∧ (env.parse args).cpu ≠ none)) := by
  refine ⟨fun env tf st hno => ?_, fun env cpu st hno => ?_, fun env args input =>
    ⟨fun w hmem => ?_, fun w hmem => ?_, impl_traceStop_mem env args input,
      impl_stopCPUProfile_mem env args input⟩⟩
  · have hr : (runtimeAfter env st.events).tracing = false :=
      foldl_call_tracing env st.events {} rfl hno
    cases tf with
    | none => simpa [stopTrace] using hr
    | some f =>
      have h := runtimeAfter_traceStop env st.events hno
      simp [stopTrace, emit, h, hr]
  · have hr : (runtimeAfter env st.events).profiling = false :=
      foldl_call_profiling env st.events {} rfl hno
    cases cpu with
    | none => simpa [stopCPUProfile] using hr
    | some f =>
      have h := runtimeAfter_stopCPUProfile env st.events hno
      simp [stopCPUProfile, emit, h, hr]
  · rcases impl_mem env args input _ hmem with h | ⟨hargs, h | ⟨err, h⟩ | h | h | h⟩
    · cases h
    · rcases Parse_traceStart_mem env _ _ w h with h | h
      · simp at h
      · exact ⟨hargs, h⟩
    · cases h
    · cases h
    · cases h
    · cases h
  · rcases impl_mem env args input _ hmem with h | ⟨hargs, h | ⟨err, h⟩ | h | h | h⟩
    · cases h
    · rcases Parse_startCPUProfile_mem env _ _ w h with h | h
      · simp at h
      · exact ⟨hargs, h.1⟩
    · cases h
    · cases h
    · cases h
    · cases h

/-- Witness for C7: after the calls of the run with the trace sink supplied
and no command given, `stopTrace` makes the one call `trace.Stop` and the
runtime, in which nothing was started, is as before. -/
theorem stop_without_start_harmless_witness :
    stopTrace (some "t.out")
        { input := stdin "",
          events := [.writeUsage, .exit 0, .errPrintln "command not specified", .exit 1] } =
      { input := stdin "",
        events := [.writeUsage, .exit 0, .errPrintln "command not specified", .exit 1,
          .traceStop] } ∧
    runtimeAfter returningEnv
        [.writeUsage, .exit 0, .errPrintln "command not specified", .exit 1, .traceStop] =
      { tracing := false, profiling := false } :=
  have h := stop_without_start_harmless.1 returningEnv (some "t.out")
    { input := stdin "",
      events := [.writeUsage, .exit 0, .errPrintln "command not specified", .exit 1] }
    (by intro w hw; simp at hw)
  ⟨by simpa using h.1, by decide⟩

end Diffs
